import Mathlib

/-!
Verification of the factory-line simulation in `operations.py`.

The source is a Streamlit app whose core is the class `FactorySimulation`:
an ordered dict of stations (name → processing time), a `use_dbr` flag and a
`buffer_size`.  `step()` advances one tick in three phases: completion
(reverse station order), dispatch (forward order), material release
("rope"), then appends a history record.  We embed that state machine as
pure Lean functions over lists, in station order.
-/

namespace Ops

/-- A station: a dict entry `name: {"time": t}` of the `stations` dict.
Durations are `Int` because `__init__` performs no range validation. -/
structure Station where
  name : String
  time : Int
deriving DecidableEq, Repr

/-- `station_status[name]['state']` ∈ {'idle', 'processing'}. -/
inductive OccState where
  | idle
  | processing
deriving DecidableEq, Repr

/-- The per-station mutable data: `self.wip[name]` (a count, never driven
below zero because the only decrement is guarded by `> 0`),
`station_status[name]['state']` and `station_status[name]['time_left']`. -/
structure StSt where
  wip : ℕ
  occ : OccState
  tl : Int
deriving DecidableEq, Repr

/-- One entry of `self.history`: `{'Time': t, 'Units Produced': u, 'WIP_name': w, ...}`. -/
structure HistEntry where
  time : ℕ
  unitsProduced : ℕ
  wip : List ℕ
deriving DecidableEq, Repr

/-- The immutable configuration passed to `FactorySimulation.__init__`. -/
structure Config where
  stations : List Station
  useDbr : Bool
  bufferSize : Int
deriving DecidableEq, Repr

/-- The mutable simulation state after `reset()` / during stepping.
`released` is a ghost counter of the release events the source records in
`self.log` in the Phase-3 branches (one log line per injected unit). -/
structure MState where
  time : ℕ
  unitsProduced : ℕ
  sts : List StSt
  history : List HistEntry
  released : ℕ
deriving DecidableEq, Repr

def durations (cfg : Config) : List Int := cfg.stations.map Station.time

/-- Accumulator for `bottleneckIdx`: Python's `max(..., key=...)` keeps the
current best and replaces it only on a strictly larger key, so ties go to
the first occurrence. -/
def argmaxGo : ℕ → Int → ℕ → List Int → ℕ
  | bi, _, _, [] => bi
  | bi, bt, i, t :: rest =>
      if bt < t then argmaxGo i t (i + 1) rest else argmaxGo bi bt (i + 1) rest

/-- `self.bottleneck_idx`: index of the first station with maximal time
(`max(self.stations, key=...)` then `.index(...)`).  The empty case is
unreachable: `max` on an empty dict raises before this is computed. -/
def bottleneckIdx : List Int → ℕ
  | [] => 0
  | t :: rest => argmaxGo 0 t 1 rest

/-- The state after `reset()`: time 0, nothing produced, all WIP 0,
every station `{'state': 'idle', 'time_left': 0}`, empty history. -/
def initState (stations : List Station) : MState :=
  ⟨0, 0, stations.map (fun _ => ⟨0, OccState.idle, 0⟩), [], 0⟩

/-- `FactorySimulation(stations, use_dbr, buffer_size)`.  `__init__` has no
validation code; the only failing input is an empty `stations` dict, where
`max(self.stations, key=...)` raises `ValueError` (modelled as `none`).
Durations and `buffer_size` of any sign are accepted. -/
def mkSimulation (stations : List Station) (useDbr : Bool) (bufferSize : Int) :
    Option (Config × MState) :=
  match stations with
  | [] => none
  | _ :: _ => some (⟨stations, useDbr, bufferSize⟩, initState stations)

/-- The Phase-1 body for a single station: if `processing`, decrement
`time_left`; on reaching `<= 0`, go `idle` and report a completion
(`time_left` keeps the decremented value, as in the source). -/
def tickSt (st : StSt) : StSt × Bool :=
  match st.occ with
  | OccState.idle => (st, false)
  | OccState.processing =>
      let tl := st.tl - 1
      if tl ≤ 0 then (⟨st.wip, OccState.idle, tl⟩, true)
      else (⟨st.wip, OccState.processing, tl⟩, false)

/-- `self.wip[name] += 1`. -/
def bump (st : StSt) : StSt := ⟨st.wip + 1, st.occ, st.tl⟩

/-- Phase 1 over the whole line.  The source iterates `i` from the last
station down to 0; each iteration reads only `station_status[name]` and
writes `station_status[name]`, `wip[station_names[i+1]]` or
`units_produced`, so the iterations are independent and the loop equals
this left-to-right pass that carries "the previous station just completed"
forward: an incoming completion lands in this station's WIP before its own
tick (ticking never reads WIP), and a completion carried past the last
station is the finished-unit count added to `units_produced`. -/
def phase1Go : Bool → List StSt → List StSt × ℕ
  | c, [] => ([], if c then 1 else 0)
  | c, st :: rest =>
      let p := tickSt (if c then bump st else st)
      let r := phase1Go p.2 rest
      (p.1 :: r.1, r.2)

def phase1 (s : MState) : MState :=
  let r := phase1Go false s.sts
  ⟨s.time, s.unitsProduced + r.2, r.1, s.history, s.released⟩

/-- The Phase-2 body for a single station: `idle` with positive WIP starts
a unit (`wip -= 1`, `state = 'processing'`, `time_left = duration`). -/
def dispatchSt (d : Int) (st : StSt) : StSt :=
  if st.occ = OccState.idle ∧ 0 < st.wip then ⟨st.wip - 1, OccState.processing, d⟩
  else st

/-- Phase 2, first station to last; each iteration touches only its own
station, paired with its configured duration. -/
def phase2Go : List Int → List StSt → List StSt
  | d :: ds, st :: rest => dispatchSt d st :: phase2Go ds rest
  | _, rest => rest

def phase2 (cfg : Config) (s : MState) : MState :=
  ⟨s.time, s.unitsProduced, phase2Go (durations cfg) s.sts, s.history, s.released⟩

/-- `buffer_wip`: queued WIP summed over stations `0 .. bottleneck_idx`
(`station_names[:self.bottleneck_idx+1]`). -/
def bufferWip (bIdx : ℕ) (sts : List StSt) : ℕ :=
  ((sts.take (bIdx + 1)).map StSt.wip).sum

/-- `self.wip[first_station_name] += 1` (no-op on the unreachable empty line). -/
def addFirstWip : List StSt → List StSt
  | [] => []
  | st :: rest => bump st :: rest

/-- Phase 3, the "rope": DBR injects one unit into the first station only
when `buffer_wip < buffer_size`; push injects unconditionally. -/
def phase3 (cfg : Config) (s : MState) : MState :=
  if cfg.useDbr then
    if (bufferWip (bottleneckIdx (durations cfg)) s.sts : Int) < cfg.bufferSize then
      ⟨s.time, s.unitsProduced, addFirstWip s.sts, s.history, s.released + 1⟩
    else s
  else
    ⟨s.time, s.unitsProduced, addFirstWip s.sts, s.history, s.released + 1⟩

/-- `self.history.append({...})` at the end of `step()`. -/
def recordHistory (s : MState) : MState :=
  ⟨s.time, s.unitsProduced, s.sts,
    s.history ++ [⟨s.time, s.unitsProduced, s.sts.map StSt.wip⟩], s.released⟩

/-- `FactorySimulation.step()`: `self.time += 1`, then completion,
dispatch, release, record. -/
def step (cfg : Config) (s : MState) : MState :=
  recordHistory (phase3 cfg (phase2 cfg (phase1
    ⟨s.time + 1, s.unitsProduced, s.sts, s.history, s.released⟩)))

/-- `n` consecutive calls to `step()`. -/
def stepN (cfg : Config) : ℕ → MState → MState
  | 0, s => s
  | n + 1, s => step cfg (stepN cfg n s)

/-- Python `a / b` on numbers: raises `ZeroDivisionError` (modelled `none`)
when the divisor is zero. -/
def pyDivQ (a b : ℚ) : Option ℚ := if b = 0 then none else some (a / b)

/-- Result of a derived display metric: a finite number or `float('inf')`. -/
inductive MetricValue where
  | finite (q : ℚ)
  | infinite
deriving DecidableEq, Repr

/-- `takt_time = available_time / customer_demand` (source line 127):
an unguarded division. -/
def taktTime (availableTime customerDemand : Int) : Option MetricValue :=
  (pyDivQ (availableTime : ℚ) (customerDemand : ℚ)).map MetricValue.finite

/-- `cycle_time = available_time / sim.units_produced if sim.units_produced > 0
else float('inf')` (source line 231). -/
def cycleTime (availableTime : Int) (unitsProduced : ℕ) : Option MetricValue :=
  if 0 < unitsProduced then
    (pyDivQ (availableTime : ℚ) (unitsProduced : ℚ)).map MetricValue.finite
  else some MetricValue.infinite

/-! Concrete configurations used by the scenario claims. -/

/-- The app's default sliders: Cutting 5, Welding 10, Painting 7, Assembly 6. -/
def scenarioStations : List Station :=
  [⟨"Cutting", 5⟩, ⟨"Welding", 10⟩, ⟨"Painting", 7⟩, ⟨"Assembly", 6⟩]

def cfgPush : Config := ⟨scenarioStations, false, 1⟩

/-- A two-station line with a fast first station feeding a slow bottleneck. -/
def twoStations : List Station := [⟨"Cutting", 1⟩, ⟨"Welding", 10⟩]

def cfgPush2 : Config := ⟨twoStations, false, 1⟩

def cfgDbr2 : Config := ⟨twoStations, true, 1⟩

/-- Default/fallback values for list lookups in theorem statements. -/
def idleSt : StSt := ⟨0, OccState.idle, 0⟩

def emptyHist : HistEntry := ⟨0, 0, []⟩

def sumWip (l : List StSt) : ℕ := (l.map StSt.wip).sum

def numProcessing (l : List StSt) : ℕ :=
  l.countP (fun st => decide (st.occ = OccState.processing))

/-- Units a station currently accounts for: its queued WIP plus the unit
on the machine when it is `processing`. -/
def unitsOf (st : StSt) : ℕ :=
  st.wip + (if st.occ = OccState.processing then 1 else 0)

/-- Units accounted for by the whole line. -/
def unitsIn (l : List StSt) : ℕ := (l.map unitsOf).sum

/-- The §3 invariant relating `time_left` and `occupancy`. -/
def tlInv (st : StSt) : Prop := 0 < st.tl ↔ st.occ = OccState.processing

end Ops

namespace Ops

/-- C1: the claim asserts that after one `step()` on the fresh [5,10,7,6]
push simulation the first station is `processing` with `time_left = 4` and
all WIP is 0.  In the code, release (Phase 3) runs after dispatch
(Phase 2), so the unit injected on tick 1 is still queued: station 1 is
idle and its WIP is 1. -/
theorem c1_counterexample :
    ¬ (((step cfgPush (initState scenarioStations)).sts.headD idleSt).occ =
          OccState.processing ∧
        ((step cfgPush (initState scenarioStations)).sts.headD idleSt).tl = 4 ∧
        sumWip (step cfgPush (initState scenarioStations)).sts = 0 ∧
        (step cfgPush (initState scenarioStations)).unitsProduced = 0) := by
  decide

/-- C1 (amended): after one `step()` on the fresh [5,10,7,6] push
simulation, the first station is idle with `time_left = 0`, its WIP is 1,
every other station's WIP is 0, and cumulative output is 0. -/
theorem c1_amended :
    ((step cfgPush (initState scenarioStations)).sts.headD idleSt).occ =
        OccState.idle ∧
      ((step cfgPush (initState scenarioStations)).sts.headD idleSt).tl = 0 ∧
      (step cfgPush (initState scenarioStations)).sts.map StSt.wip = [1, 0, 0, 0] ∧
      (step cfgPush (initState scenarioStations)).unitsProduced = 0 := by
  decide

/-- C4: the claim asserts construction fails with `ConfigurationError`
exactly on an empty station list, a duration `< 1`, or dbr with
`buffer_capacity < 1`.  `__init__` validates nothing: a zero duration and
a dbr simulation with `buffer_capacity = 0` are both accepted. -/
theorem c4_counterexample :
    (mkSimulation [⟨"Cutting", 0⟩] false 1).isSome = true ∧
      (mkSimulation scenarioStations true 0).isSome = true := by
  decide

/-- C4 (amended): construction fails exactly when the station list is
empty (where `max()` raises `ValueError`, not a `ConfigurationError`);
durations below 1 and dbr with `buffer_capacity < 1` are accepted. -/
theorem c4_amended (stations : List Station) (useDbr : Bool) (bufferSize : Int) :
    mkSimulation stations useDbr bufferSize = none ↔ stations = [] := by
  cases stations <;> simp [mkSimulation]

/-- C7: on the two-station push line, in the third tick the first station
completes its unit in Phase 1 (making it queued WIP at station 2, which
was idle with no WIP before the tick), and Phase 2 of the same tick
dispatches that very unit into processing at station 2: dispatch reads the
WIP counts already updated by the completion phase. -/
theorem c7_same_tick_dispatch :
    ((stepN cfgPush2 2 (initState twoStations)).sts.getD 1 idleSt).wip = 0 ∧
      ((stepN cfgPush2 2 (initState twoStations)).sts.getD 1 idleSt).occ =
        OccState.idle ∧
      ((stepN cfgPush2 2 (initState twoStations)).sts.getD 0 idleSt).occ =
        OccState.processing ∧
      ((phase1 ⟨(stepN cfgPush2 2 (initState twoStations)).time + 1,
          (stepN cfgPush2 2 (initState twoStations)).unitsProduced,
          (stepN cfgPush2 2 (initState twoStations)).sts,
          (stepN cfgPush2 2 (initState twoStations)).history,
          (stepN cfgPush2 2 (initState twoStations)).released⟩).sts.getD 0
          idleSt).occ = OccState.idle ∧
      ((phase1 ⟨(stepN cfgPush2 2 (initState twoStations)).time + 1,
          (stepN cfgPush2 2 (initState twoStations)).unitsProduced,
          (stepN cfgPush2 2 (initState twoStations)).sts,
          (stepN cfgPush2 2 (initState twoStations)).history,
          (stepN cfgPush2 2 (initState twoStations)).released⟩).sts.getD 1
          idleSt).wip = 1 ∧
      ((phase2 cfgPush2 (phase1 ⟨(stepN cfgPush2 2 (initState twoStations)).time + 1,
          (stepN cfgPush2 2 (initState twoStations)).unitsProduced,
          (stepN cfgPush2 2 (initState twoStations)).sts,
          (stepN cfgPush2 2 (initState twoStations)).history,
          (stepN cfgPush2 2 (initState twoStations)).released⟩)).sts.getD 1
          idleSt).occ = OccState.processing ∧
      ((phase2 cfgPush2 (phase1 ⟨(stepN cfgPush2 2 (initState twoStations)).time + 1,
          (stepN cfgPush2 2 (initState twoStations)).unitsProduced,
          (stepN cfgPush2 2 (initState twoStations)).sts,
          (stepN cfgPush2 2 (initState twoStations)).history,
          (stepN cfgPush2 2 (initState twoStations)).released⟩)).sts.getD 1
          idleSt).wip = 0 := by
  decide

end Ops

namespace Ops

/-- C2: the claim asserts that under dbr with `buffer_capacity ≥ 1` no
recorded state has queued WIP through the bottleneck above
`buffer_capacity`.  On the [1,10] dbr line with `buffer_capacity = 1`
(bottleneck index 1, so the buffer spans both stations), the history
record of tick 5 has WIP [0, 2]: a completion at the fast first station
lands in the bottleneck queue while another unit is already waiting, so
the recorded buffer occupancy is 2 > 1. -/
theorem c2_counterexample :
    cfgDbr2.useDbr = true ∧
      cfgDbr2.bufferSize = 1 ∧
      bottleneckIdx (durations cfgDbr2) = 1 ∧
      (stepN cfgDbr2 5 (initState twoStations)).history.getD 4 emptyHist ∈
        (stepN cfgDbr2 5 (initState twoStations)).history ∧
      ((stepN cfgDbr2 5 (initState twoStations)).history.getD 4 emptyHist).wip =
        [0, 2] ∧
      ¬ ((((((stepN cfgDbr2 5 (initState twoStations)).history.getD 4
          emptyHist).wip.take (bottleneckIdx (durations cfgDbr2) + 1)).sum : ℕ) : Int) ≤
          cfgDbr2.bufferSize) := by
  decide

/-- `bufferWip` grows by at most one when a unit is injected at the head. -/
theorem bufferWip_addFirstWip (b : ℕ) (l : List StSt) :
    bufferWip b (addFirstWip l) ≤ bufferWip b l + 1 := by
  cases l with
  | nil => simp [addFirstWip]
  | cons st rest =>
      simp only [addFirstWip, bufferWip, bump, List.take_succ_cons, List.map_cons,
        List.sum_cons]
      omega

/-- C2 (amended): in dbr mode the release phase injects only when
buffer occupancy is strictly below `buffer_capacity`, so Phase 3 never
raises the occupancy above `max` of its pre-release value and
`buffer_capacity`; recorded occupancy can still exceed `buffer_capacity`
through Phase-1 completions arriving into the buffer region. -/
theorem c2_amended (cfg : Config) (s : MState) (h : cfg.useDbr = true) :
    ((bufferWip (bottleneckIdx (durations cfg)) (phase3 cfg s).sts : ℕ) : Int) ≤
      max ((bufferWip (bottleneckIdx (durations cfg)) s.sts : ℕ) : Int)
        cfg.bufferSize := by
  simp only [phase3, h, if_true]
  split
  case isTrue hb =>
    have h1 := bufferWip_addFirstWip (bottleneckIdx (durations cfg)) s.sts
    have h2 : ((bufferWip (bottleneckIdx (durations cfg)) (addFirstWip s.sts) : ℕ) : Int) ≤
        ((bufferWip (bottleneckIdx (durations cfg)) s.sts : ℕ) : Int) + 1 := by
      exact_mod_cast h1
    refine le_trans h2 (le_trans ?_ (le_max_right _ _))
    omega
  case isFalse hb => exact le_max_left _ _

/-- C2 (amended) at a concrete input: the dbr [1,10] line after four
steps, where the release guard is active. -/
theorem c2_amended_witness :
    cfgDbr2.useDbr = true ∧
      ((bufferWip (bottleneckIdx (durations cfgDbr2))
          (phase3 cfgDbr2 (stepN cfgDbr2 4 (initState twoStations))).sts : ℕ) : Int) ≤
        max ((bufferWip (bottleneckIdx (durations cfgDbr2))
            (stepN cfgDbr2 4 (initState twoStations)).sts : ℕ) : Int)
          cfgDbr2.bufferSize :=
  ⟨rfl, c2_amended cfgDbr2 (stepN cfgDbr2 4 (initState twoStations)) rfl⟩

/-- C5: in push mode the release phase unconditionally adds one unit of
WIP to the first station, whatever the station states, WIP levels or tick:
the `else` branch of the rope logic always executes
`self.wip[first_station_name] += 1`. -/
theorem c5_push_always_releases (cfg : Config) (s : MState)
    (h : cfg.useDbr = false) (h2 : s.sts ≠ []) :
    ((phase3 cfg s).sts.headD idleSt).wip = (s.sts.headD idleSt).wip + 1 := by
  cases hs : s.sts with
  | nil => exact absurd hs h2
  | cons st rest => simp [phase3, h, hs, addFirstWip, bump]

/-- C5 at a concrete input: the scenario push line after two steps. -/
theorem c5_witness :
    cfgPush.useDbr = false ∧
      (stepN cfgPush 2 (initState scenarioStations)).sts ≠ [] ∧
      ((phase3 cfgPush (stepN cfgPush 2 (initState scenarioStations))).sts.headD
          idleSt).wip =
        ((stepN cfgPush 2 (initState scenarioStations)).sts.headD idleSt).wip + 1 :=
  ⟨rfl, by decide,
    c5_push_always_releases cfgPush (stepN cfgPush 2 (initState scenarioStations))
      rfl (by decide)⟩

/-- C6: the claim asserts every division-based derived metric is guarded,
`takt_time` at demand 0 included.  Line 127 computes
`available_time / customer_demand` with no guard: at demand 0 it raises
`ZeroDivisionError` (modelled `none`) instead of yielding a value. -/
theorem c6_counterexample : taktTime 1000 0 = none := by
  simp [taktTime, pyDivQ]

/-- C6 (amended): `cycle_time` is guarded — it never raises, and yields
the explicit value `float('inf')` when no units were produced — but
`takt_time` is an unguarded division that raises exactly when customer
demand is 0 (the demand input widget, however, enforces a minimum of 1). -/
theorem c6_amended (a : Int) (p : ℕ) (d : Int) :
    cycleTime a p ≠ none ∧
      cycleTime a 0 = some MetricValue.infinite ∧
      (taktTime a d = none ↔ d = 0) := by
  refine ⟨?_, ?_, ?_⟩
  · unfold cycleTime pyDivQ
    split
    case isTrue hp =>
      have : ((p : ℚ)) ≠ 0 := by
        exact_mod_cast Nat.pos_iff_ne_zero.mp hp
      simp [this]
    case isFalse hp => simp
  · simp [cycleTime]
  · unfold taktTime pyDivQ
    constructor
    · intro hnone
      by_contra hd
      have : ((d : ℚ)) ≠ 0 := by exact_mod_cast hd
      simp [this] at hnone
    · intro hd
      subst hd
      simp

end Ops

namespace Ops

/-! Conservation lemmas for C3. -/

theorem unitsIn_eq_sumWip_add_numProcessing (l : List StSt) :
    unitsIn l = sumWip l + numProcessing l := by
  induction l with
  | nil => rfl
  | cons st rest ih =>
      by_cases h : st.occ = OccState.processing <;>
        simp only [unitsIn, sumWip, numProcessing, unitsOf, List.map_cons,
          List.sum_cons, List.countP_cons, decide_eq_true_eq, h] at ih ⊢ <;>
        simp only [h, if_pos, if_neg, not_false_iff] <;>
        omega

theorem tickSt_conserve (st : StSt) :
    unitsOf (tickSt st).1 + (if (tickSt st).2 then 1 else 0) = unitsOf st := by
  obtain ⟨w, occ, tl⟩ := st
  cases occ with
  | idle => simp [tickSt, unitsOf]
  | processing =>
      simp only [tickSt, unitsOf]
      split <;> simp

theorem unitsOf_bump (st : StSt) : unitsOf (bump st) = unitsOf st + 1 := by
  cases h : st.occ <;> simp [bump, unitsOf, h]

theorem phase1Go_conserve (l : List StSt) :
    ∀ c : Bool,
      unitsIn (phase1Go c l).1 + (phase1Go c l).2 =
        unitsIn l + (if c then 1 else 0) := by
  induction l with
  | nil => intro c; simp [phase1Go, unitsIn]
  | cons st rest ih =>
      intro c
      have ht := tickSt_conserve (if c then bump st else st)
      have hr := ih (tickSt (if c then bump st else st)).2
      have hb : unitsOf (if c then bump st else st) =
          unitsOf st + (if c then 1 else 0) := by
        cases c <;> simp [unitsOf_bump]
      simp only [phase1Go, unitsIn, List.map_cons, List.sum_cons] at hr ⊢
      omega

theorem phase1Go_length (l : List StSt) :
    ∀ c : Bool, (phase1Go c l).1.length = l.length := by
  induction l with
  | nil => intro c; rfl
  | cons st rest ih =>
      intro c
      simp only [phase1Go, List.length_cons]
      rw [ih]

theorem dispatchSt_conserve (d : Int) (st : StSt) :
    unitsOf (dispatchSt d st) = unitsOf st := by
  unfold dispatchSt unitsOf
  split
  case isTrue h =>
    obtain ⟨h1, h2⟩ := h
    simp only [h1, unitsOf]
    simp
    omega
  case isFalse h => rfl


theorem phase2Go_conserve (l : List StSt) :
    ∀ ds : List Int, unitsIn (phase2Go ds l) = unitsIn l := by
  induction l with
  | nil => intro ds; cases ds <;> rfl
  | cons st rest ih =>
      intro ds
      cases ds with
      | nil => rfl
      | cons d ds =>
          have := ih ds
          simp only [phase2Go, unitsIn, List.map_cons, List.sum_cons,
            dispatchSt_conserve] at this ⊢
          omega

theorem phase2Go_length (l : List StSt) :
    ∀ ds : List Int, (phase2Go ds l).length = l.length := by
  induction l with
  | nil => intro ds; cases ds <;> rfl
  | cons st rest ih =>
      intro ds
      cases ds with
      | nil => rfl
      | cons d ds => simp only [phase2Go, List.length_cons]; rw [ih]

theorem unitsIn_addFirstWip (l : List StSt) (h : l ≠ []) :
    unitsIn (addFirstWip l) = unitsIn l + 1 := by
  cases l with
  | nil => exact absurd rfl h
  | cons st rest =>
      simp only [addFirstWip, unitsIn, List.map_cons, List.sum_cons, unitsOf_bump]
      omega

theorem addFirstWip_length (l : List StSt) :
    (addFirstWip l).length = l.length := by
  cases l <;> rfl

theorem phase3_conserve (cfg : Config) (s : MState) (h : s.sts ≠ []) :
    unitsIn (phase3 cfg s).sts + s.released =
        unitsIn s.sts + (phase3 cfg s).released ∧
      (phase3 cfg s).unitsProduced = s.unitsProduced ∧
      (phase3 cfg s).sts.length = s.sts.length := by
  unfold phase3
  split_ifs with h1 h2
  · exact ⟨by simp only [unitsIn_addFirstWip s.sts h]; omega, rfl,
      addFirstWip_length s.sts⟩
  · exact ⟨rfl, rfl, rfl⟩
  · exact ⟨by simp only [unitsIn_addFirstWip s.sts h]; omega, rfl,
      addFirstWip_length s.sts⟩

theorem step_conserve (cfg : Config) (s : MState) (h : s.sts ≠ [])
    (hinv : s.unitsProduced + unitsIn s.sts = s.released) :
    ((step cfg s).unitsProduced + unitsIn (step cfg s).sts =
        (step cfg s).released) ∧
      (step cfg s).sts.length = s.sts.length := by
  have h1c := phase1Go_conserve s.sts false
  have h1l := phase1Go_length s.sts false
  have h2c := phase2Go_conserve (phase1Go false s.sts).1 (durations cfg)
  have h2l := phase2Go_length (phase1Go false s.sts).1 (durations cfg)
  have hne : (phase2 cfg (phase1
      ⟨s.time + 1, s.unitsProduced, s.sts, s.history, s.released⟩)).sts ≠ [] := by
    simp only [phase2, phase1]
    intro hnil
    have : (phase2Go (durations cfg) (phase1Go false s.sts).1).length = 0 := by
      rw [hnil]; rfl
    rw [h2l, h1l] at this
    exact h (List.length_eq_zero.mp this)
  have h3 := phase3_conserve cfg
    (phase2 cfg (phase1 ⟨s.time + 1, s.unitsProduced, s.sts, s.history, s.released⟩))
    hne
  simp only [step, recordHistory, phase2, phase1] at h3 ⊢
  simp only [if_neg Bool.false_ne_true, if_false] at h1c
  constructor
  · omega
  · rw [h3.2.2, h2l, h1l]

/-- C3: at the end of every tick (and initially), cumulative output plus
all queued WIP plus the number of stations currently processing equals the
number of units the release phase has injected so far: units are neither
created nor destroyed except by release and final-station completion. -/
theorem c3_wip_conservation (cfg : Config) (n : ℕ) (h : cfg.stations ≠ []) :
    (stepN cfg n (initState cfg.stations)).unitsProduced +
        sumWip (stepN cfg n (initState cfg.stations)).sts +
        numProcessing (stepN cfg n (initState cfg.stations)).sts =
      (stepN cfg n (initState cfg.stations)).released := by
  have hinit : unitsIn (initState cfg.stations).sts = 0 := by
    have : ∀ stations : List Station, unitsIn (initState stations).sts = 0 := by
      intro stations
      induction stations with
      | nil => rfl
      | cons st rest ih =>
          simp only [initState, unitsIn, unitsOf, List.map_cons, List.sum_cons] at ih ⊢
          simpa using ih
    exact this cfg.stations
  have key : ∀ m : ℕ,
      ((stepN cfg m (initState cfg.stations)).unitsProduced +
          unitsIn (stepN cfg m (initState cfg.stations)).sts =
        (stepN cfg m (initState cfg.stations)).released) ∧
      (stepN cfg m (initState cfg.stations)).sts.length = cfg.stations.length := by
    intro m
    induction m with
    | zero =>
        refine ⟨by simpa [stepN, initState] using hinit, ?_⟩
        simp [stepN, initState]
    | succ m ih =>
        have hne : (stepN cfg m (initState cfg.stations)).sts ≠ [] := by
          intro hnil
          have := ih.2
          rw [hnil] at this
          exact h (List.length_eq_zero.mp this.symm)
        have hs := step_conserve cfg (stepN cfg m (initState cfg.stations)) hne ih.1
        exact ⟨hs.1, by rw [stepN, hs.2, ih.2]⟩
  have hk := (key n).1
  rwa [unitsIn_eq_sumWip_add_numProcessing, ← Nat.add_assoc] at hk

/-- C3 at a concrete input: the scenario push line after three steps. -/
theorem c3_witness :
    cfgPush.stations ≠ [] ∧
      (stepN cfgPush 3 (initState cfgPush.stations)).unitsProduced +
          sumWip (stepN cfgPush 3 (initState cfgPush.stations)).sts +
          numProcessing (stepN cfgPush 3 (initState cfgPush.stations)).sts =
        (stepN cfgPush 3 (initState cfgPush.stations)).released :=
  ⟨by decide, c3_wip_conservation cfgPush 3 (by decide)⟩

end Ops

namespace Ops

/-! The `time_left`/`occupancy` invariant, for C8. -/

theorem tlInv_tickSt (st : StSt) (h : tlInv st) : tlInv (tickSt st).1 := by
  obtain ⟨w, occ, tl⟩ := st
  cases occ with
  | idle => exact h
  | processing =>
      simp only [tickSt]
      split
      case isTrue hle =>
        simp only [tlInv]
        simp
        omega
      case isFalse hgt =>
        simp only [tlInv]
        simp
        omega

theorem tlInv_bump (st : StSt) (h : tlInv st) : tlInv (bump st) := h

theorem tlInv_dispatchSt (d : Int) (st : StSt) (hd : 1 ≤ d) (h : tlInv st) :
    tlInv (dispatchSt d st) := by
  unfold dispatchSt
  split
  case isTrue hc =>
    simp only [tlInv]
    simp
    omega
  case isFalse hc => exact h

theorem tlInv_phase1Go (l : List StSt) :
    ∀ c : Bool, (∀ st ∈ l, tlInv st) → ∀ st ∈ (phase1Go c l).1, tlInv st := by
  induction l with
  | nil => intro c _ st hst; simp [phase1Go] at hst
  | cons a rest ih =>
      intro c hall st hst
      simp only [phase1Go] at hst
      rcases List.mem_cons.mp hst with rfl | hmem
      · have ha : tlInv (if c then bump a else a) := by
          cases c
          · exact hall a (List.mem_cons_self a rest)
          · exact tlInv_bump a (hall a (List.mem_cons_self a rest))
        exact tlInv_tickSt _ ha
      · exact ih _ (fun st' h' => hall st' (List.mem_cons_of_mem a h')) st hmem

theorem tlInv_phase2Go (l : List StSt) :
    ∀ ds : List Int, (∀ d ∈ ds, 1 ≤ d) → (∀ st ∈ l, tlInv st) →
      ∀ st ∈ phase2Go ds l, tlInv st := by
  induction l with
  | nil => intro ds _ _ st hst; cases ds <;> simp [phase2Go] at hst
  | cons a rest ih =>
      intro ds hd hall st hst
      cases ds with
      | nil => exact hall st hst
      | cons d ds =>
          simp only [phase2Go] at hst
          rcases List.mem_cons.mp hst with rfl | hmem
          · exact tlInv_dispatchSt d a (hd d (List.mem_cons_self d ds))
              (hall a (List.mem_cons_self a rest))
          · exact ih ds (fun d' h' => hd d' (List.mem_cons_of_mem d h'))
              (fun st' h' => hall st' (List.mem_cons_of_mem a h')) st hmem

theorem tlInv_addFirstWip (l : List StSt) (h : ∀ st ∈ l, tlInv st) :
    ∀ st ∈ addFirstWip l, tlInv st := by
  cases l with
  | nil => intro st hst; simp [addFirstWip] at hst
  | cons a rest =>
      intro st hst
      simp only [addFirstWip] at hst
      rcases List.mem_cons.mp hst with rfl | hmem
      · exact tlInv_bump a (h a (List.mem_cons_self a rest))
      · exact h st (List.mem_cons_of_mem a hmem)

theorem tlInv_phase3 (cfg : Config) (s : MState) (h : ∀ st ∈ s.sts, tlInv st) :
    ∀ st ∈ (phase3 cfg s).sts, tlInv st := by
  unfold phase3
  split_ifs with h1 h2
  · exact tlInv_addFirstWip s.sts h
  · exact h
  · exact tlInv_addFirstWip s.sts h

/-- C8: in every reachable state — initial, or after any number of
`step()` calls on a configuration whose durations are all at least 1 —
`time_left` is positive exactly at the stations whose state is
`processing`. -/
theorem c8_time_left_iff_processing (cfg : Config) (n : ℕ)
    (h : ∀ st ∈ cfg.stations, 1 ≤ st.time) :
    ∀ st ∈ (stepN cfg n (initState cfg.stations)).sts,
      0 < st.tl ↔ st.occ = OccState.processing := by
  have hd : ∀ d ∈ durations cfg, 1 ≤ d := by
    intro d hdm
    simp only [durations, List.mem_map] at hdm
    obtain ⟨st, hst, rfl⟩ := hdm
    exact h st hst
  have key : ∀ m : ℕ,
      ∀ st ∈ (stepN cfg m (initState cfg.stations)).sts, tlInv st := by
    intro m
    induction m with
    | zero =>
        intro st hst
        simp only [stepN, initState, List.mem_map] at hst
        obtain ⟨a, _, rfl⟩ := hst
        simp [tlInv]
    | succ m ih =>
        intro st hst
        simp only [stepN, step, recordHistory] at hst
        refine tlInv_phase3 cfg _ ?_ st hst
        intro st' hst'
        simp only [phase2, phase1] at hst'
        refine tlInv_phase2Go _ (durations cfg) hd ?_ st' hst'
        intro st'' hst''
        exact tlInv_phase1Go _ false ih st'' hst''
  exact key n

/-- C8 at a concrete input: the scenario push line after three steps. -/
theorem c8_witness :
    (∀ st ∈ cfgPush.stations, 1 ≤ st.time) ∧
      ∀ st ∈ (stepN cfgPush 3 (initState cfgPush.stations)).sts,
        0 < st.tl ↔ st.occ = OccState.processing :=
  ⟨by decide, c8_time_left_iff_processing cfgPush 3 (by decide)⟩

end Ops

namespace Ops

/-! Length preservation and the push-mode record bound, for C9. -/

theorem step_sts_length (cfg : Config) (s : MState) :
    (step cfg s).sts.length = s.sts.length := by
  simp only [step, recordHistory, phase3, phase2, phase1]
  split_ifs with h1 h2
  · rw [addFirstWip_length, phase2Go_length, phase1Go_length]
  · rw [phase2Go_length, phase1Go_length]
  · rw [addFirstWip_length, phase2Go_length, phase1Go_length]

theorem stepN_sts_length (cfg : Config) (n : ℕ) (s : MState) :
    (stepN cfg n s).sts.length = s.sts.length := by
  induction n with
  | zero => rfl
  | succ n ih => rw [stepN, step_sts_length, ih]

theorem headD_wip_addFirstWip (l : List StSt) (h : l ≠ []) :
    1 ≤ ((addFirstWip l).map StSt.wip).headD 0 := by
  cases l with
  | nil => exact absurd rfl h
  | cons a rest => simp [addFirstWip, bump]

/-- In push mode, the record a single `step()` appends shows at least one
queued unit at the first station (the Phase-3 injection, which Phase 2
cannot have consumed because it already ran). -/
theorem c9_step_record (cfg : Config) (s : MState) (h : cfg.useDbr = false)
    (h2 : s.sts ≠ []) :
    ∀ e ∈ (step cfg s).history, e ∈ s.history ∨ 1 ≤ e.wip.headD 0 := by
  intro e he
  simp only [step, recordHistory, phase3, phase2, phase1, h, Bool.false_eq_true,
    if_false, List.mem_append, List.mem_singleton] at he
  rcases he with hmem | rfl
  · exact Or.inl hmem
  · right
    apply headD_wip_addFirstWip
    intro hnil
    have hl : (phase2Go (durations cfg) (phase1Go false s.sts).1).length = 0 := by
      rw [hnil]; rfl
    rw [phase2Go_length, phase1Go_length] at hl
    exact h2 (List.length_eq_zero.mp hl)

/-- C9: in push mode, a unit released in Phase 3 is never dispatched in
the same tick: every history record written at the end of a push-mode tick
shows first-station WIP at least 1. -/
theorem c9_push_first_wip_recorded (cfg : Config) (n : ℕ)
    (h : cfg.useDbr = false) (h2 : cfg.stations ≠ []) :
    ∀ e ∈ (stepN cfg n (initState cfg.stations)).history, 1 ≤ e.wip.headD 0 := by
  induction n with
  | zero => intro e he; simp [stepN, initState] at he
  | succ n ih =>
      intro e he
      have hne : (stepN cfg n (initState cfg.stations)).sts ≠ [] := by
        intro hnil
        have hl := stepN_sts_length cfg n (initState cfg.stations)
        rw [hnil] at hl
        simp only [initState, List.length_map, List.length_nil] at hl
        exact h2 (List.length_eq_zero.mp hl.symm)
      rcases c9_step_record cfg (stepN cfg n (initState cfg.stations)) h hne e he
        with hmem | hge
      · exact ih e hmem
      · exact hge

/-- C9 at a concrete input: the scenario push line after three steps. -/
theorem c9_witness :
    cfgPush.useDbr = false ∧ cfgPush.stations ≠ [] ∧
      ∀ e ∈ (stepN cfgPush 3 (initState cfgPush.stations)).history,
        1 ≤ e.wip.headD 0 :=
  ⟨rfl, by decide, c9_push_first_wip_recorded cfgPush 3 rfl (by decide)⟩

end Ops

namespace Ops

/-! The frozen dbr line with a non-positive buffer, for C10. -/

theorem allIdle_phase1Go (l : List StSt) (h : ∀ st ∈ l, st = idleSt) :
    phase1Go false l = (l, 0) := by
  induction l with
  | nil => rfl
  | cons a rest ih =>
      have ha := h a (List.mem_cons_self a rest)
      have hr := ih (fun st hst => h st (List.mem_cons_of_mem a hst))
      subst ha
      simp [phase1Go, tickSt, idleSt, hr]

theorem allZero_phase2Go (l : List StSt) (h : ∀ st ∈ l, st.wip = 0) :
    ∀ ds : List Int, phase2Go ds l = l := by
  induction l with
  | nil => intro ds; cases ds <;> rfl
  | cons a rest ih =>
      intro ds
      cases ds with
      | nil => rfl
      | cons d ds =>
          have ha := h a (List.mem_cons_self a rest)
          have hr := ih (fun st hst => h st (List.mem_cons_of_mem a hst)) ds
          simp [phase2Go, dispatchSt, ha, hr]

theorem allZero_bufferWip (b : ℕ) (l : List StSt) (h : ∀ st ∈ l, st.wip = 0) :
    bufferWip b l = 0 := by
  unfold bufferWip
  apply List.sum_eq_zero
  intro x hx
  simp only [List.mem_map] at hx
  obtain ⟨st, hst, rfl⟩ := hx
  exact h st (List.take_subset _ _ hst)

theorem c10_step_frozen (cfg : Config) (s : MState)
    (h1 : cfg.useDbr = true) (h2 : cfg.bufferSize ≤ 0)
    (hall : ∀ st ∈ s.sts, st = idleSt) :
    (step cfg s).sts = s.sts ∧ (step cfg s).unitsProduced = s.unitsProduced ∧
      (step cfg s).released = s.released := by
  have hz : ∀ st ∈ s.sts, st.wip = 0 := by
    intro st hst
    rw [hall st hst]
    rfl
  have hp1 := allIdle_phase1Go s.sts hall
  have hp2 := allZero_phase2Go s.sts hz (durations cfg)
  have hb := allZero_bufferWip (bottleneckIdx (durations cfg)) s.sts hz
  have hguard :
      ¬ ((bufferWip (bottleneckIdx (durations cfg)) s.sts : ℕ) : Int) <
        cfg.bufferSize := by
    rw [hb]
    simp only [Nat.cast_zero, not_lt]
    omega
  have e1 : phase1 ⟨s.time + 1, s.unitsProduced, s.sts, s.history, s.released⟩ =
      ⟨s.time + 1, s.unitsProduced, s.sts, s.history, s.released⟩ := by
    simp [phase1, hp1]
  have e2 : phase2 cfg ⟨s.time + 1, s.unitsProduced, s.sts, s.history, s.released⟩ =
      ⟨s.time + 1, s.unitsProduced, s.sts, s.history, s.released⟩ := by
    simp [phase2, hp2]
  have e3 : phase3 cfg ⟨s.time + 1, s.unitsProduced, s.sts, s.history, s.released⟩ =
      ⟨s.time + 1, s.unitsProduced, s.sts, s.history, s.released⟩ := by
    simp only [phase3, h1, if_true]
    rw [if_neg hguard]
  rw [step, e1, e2, e3]
  exact ⟨rfl, rfl, rfl⟩

/-- C10: a dbr simulation with `buffer_capacity ≤ 0` is constructed
without error, and the rope never fires: after any number of steps all
WIP counts and station states are still at their initial zero/idle values,
nothing is produced, and no unit has ever been released. -/
theorem c10_dbr_nonpositive_buffer (stations : List Station) (bufferSize : Int)
    (n : ℕ) (h1 : bufferSize ≤ 0) (h2 : stations ≠ []) :
    (mkSimulation stations true bufferSize).isSome = true ∧
      (stepN ⟨stations, true, bufferSize⟩ n (initState stations)).sts =
        (initState stations).sts ∧
      (stepN ⟨stations, true, bufferSize⟩ n (initState stations)).unitsProduced =
        0 ∧
      (stepN ⟨stations, true, bufferSize⟩ n (initState stations)).released = 0 := by
  refine ⟨?_, ?_⟩
  · cases stations with
    | nil => exact absurd rfl h2
    | cons a rest => rfl
  · induction n with
    | zero => exact ⟨rfl, rfl, rfl⟩
    | succ n ih =>
        have hall : ∀ st ∈ (stepN ⟨stations, true, bufferSize⟩ n
            (initState stations)).sts, st = idleSt := by
          rw [ih.1]
          intro st hst
          simp only [initState, List.mem_map] at hst
          obtain ⟨a, _, rfl⟩ := hst
          rfl
        have hf := c10_step_frozen ⟨stations, true, bufferSize⟩
          (stepN ⟨stations, true, bufferSize⟩ n (initState stations)) rfl h1 hall
        refine ⟨?_, ?_, ?_⟩
        · rw [stepN, hf.1, ih.1]
        · rw [stepN, hf.2.1, ih.2.1]
        · rw [stepN, hf.2.2, ih.2.2]

/-- C10 at a concrete input: the scenario stations under dbr with
`buffer_capacity = 0`, run for four steps. -/
theorem c10_witness :
    (mkSimulation scenarioStations true 0).isSome = true ∧
      (stepN ⟨scenarioStations, true, 0⟩ 4 (initState scenarioStations)).sts =
        (initState scenarioStations).sts ∧
      (stepN ⟨scenarioStations, true, 0⟩ 4
        (initState scenarioStations)).unitsProduced = 0 ∧
      (stepN ⟨scenarioStations, true, 0⟩ 4 (initState scenarioStations)).released =
        0 :=
  c10_dbr_nonpositive_buffer scenarioStations 0 4 (by omega) (by decide)

end Ops
